import Mathlib

/-!
Verification of the TubeDrop downloader against its specification.

The definitions below are a shallow embedding of the Python sources:

* `src/core/downloader.py` — `YouTubeDownloader._get_downloaded_ids`,
  `_build_download_options`, `download_single_video`, `download_playlist`,
  `cancel_current_download`;
* `src/core/config.py` — `DEFAULT_DOWNLOAD_CONFIG`, `AUDIO_FORMATS`,
  `VIDEO_FORMATS`, `VIDEO_QUALITIES`;
* `src/core/extras.py` — `FileManager.get_storage_info`,
  `FileManager.clean_empty_folders`, `QualityAnalyzer.get_quality_report`;
* `src/utils/helpers.py` — `load_json_file` / `save_json_file` and
  `SettingsManager`.

Python exceptions are modelled with `Except Unit`; machine state that the
code mutates (the cooperative cancellation flag, the module-level default
download configuration) is threaded explicitly.
-/

set_option autoImplicit false

namespace TubeDrop

/-! ## JSON sidecar model (`_get_downloaded_ids`, downloader.py lines 127-152)

A `*.info.json` file on disk either fails to parse as JSON
(`json.JSONDecodeError`), parses to a JSON value that is not an object
(so that `data.get('id')` raises `AttributeError`), or parses to an
object, modelled as an association list of fields.  Field values are
either strings or null; Python truthiness of a string is nonemptiness. -/

inductive JVal where
  | jstr (s : String)
  | jnull
deriving DecidableEq, Repr

/-- Python truthiness of a JSON field value: a string is truthy iff nonempty,
`null` is falsy. -/
def JVal.truthy : JVal → Bool
  | .jstr s => !s.isEmpty
  | .jnull => false

inductive JDoc where
  | obj (fields : List (String × JVal))
  | nonObj
  | invalid
deriving DecidableEq, Repr

/-- `data.get(key)` on a parsed JSON object. -/
def jget (fields : List (String × JVal)) (key : String) : Option JVal :=
  match fields with
  | [] => none
  | (k, v) :: rest => if k = key then some v else jget rest key

/-- `downloaded_ids.add(video_id)` on a Python set, modelled as a
duplicate-free list: membership is all that is ever consulted. -/
def sinsert (s : String) (acc : List String) : List String :=
  if acc.contains s then acc else s :: acc

/-- One iteration of the scan loop of `_get_downloaded_ids`: process one
sidecar file.  A file that fails to parse is skipped (the `except` clause
catches `json.JSONDecodeError`); a file that parses to a non-object makes
`data.get('id')` raise `AttributeError`, which is NOT in the caught tuple
`(json.JSONDecodeError, KeyError, FileNotFoundError)` and so propagates;
an object contributes its `id` field when that field is truthy. -/
def scanSidecar (acc : List String) : JDoc → Except Unit (List String)
  | .invalid => .ok acc
  | .nonObj => .error ()
  | .obj fields =>
    match jget fields "id" with
    | some (.jstr s) => if !String.isEmpty s then .ok (sinsert s acc) else .ok acc
    | some .jnull => .ok acc
    | none => .ok acc

/-- Fold the scan over the globbed sidecar files. -/
def scanSidecars (acc : List String) : List JDoc → Except Unit (List String)
  | [] => .ok acc
  | d :: rest =>
    match scanSidecar acc d with
    | .ok acc2 => scanSidecars acc2 rest
    | .error e => .error e

/-- `YouTubeDownloader._get_downloaded_ids` (downloader.py lines 127-152).
The folder is `none` when the directory does not exist, otherwise the list
of its `*.info.json` files (in glob order). -/
def getDownloadedIds : Option (List JDoc) → Except Unit (List String)
  | none => .ok []
  | some files => scanSidecars [] files

/-! ## Playlist download (`download_playlist`, downloader.py lines 238-320)

A playlist entry from `extract_info` is either `None` (modelled by the
outer `Option`) or a dict carrying an optional `id`.  The cooperative
cancellation flag set by `cancel_current_download` is modelled by a
boundary predicate `flag : Nat → Bool`: `flag i` is the value of
`self.cancel_download` when the loop head is reached after `i` completed
engine calls (the flag is read only there, since `ydl.download([url])` is
one opaque engine call). -/

structure Entry where
  id : Option String
deriving DecidableEq, Repr

/-- The URL built for a playlist entry:
`f"https://www.youtube.com/watch?v={video_id}"`; Python interpolates
`None` as the string `None`. -/
def makeUrl (id : Option String) : String :=
  "https://www.youtube.com/watch?v=" ++ (match id with | some s => s | none => "None")

/-- Membership test `video_id not in downloaded_ids` (negated): a `None`
id is never a member of a set of strings. -/
def idMem (id : Option String) (ids : List String) : Bool :=
  match id with
  | some s => ids.contains s
  | none => false

/-- The filter loop of `download_playlist` (lines 287-295): entries that
are `None` are skipped; an entry is queued unless `skip_existing` holds
and its id is already present. -/
def urlsToDownload (entries : List (Option Entry)) (skip : Bool)
    (ids : List String) : List String :=
  entries.filterMap fun e =>
    match e with
    | none => none
    | some en => if !skip || !idMem en.id ids then some (makeUrl en.id) else none

/-- The download loop of `download_playlist` (lines 307-314) together with
the final `return not self.cancel_download`.  Returns the list of URLs
actually passed to the engine and the boolean result.  `i` counts the
engine calls completed so far. -/
def playlistLoop (flag : Nat → Bool) : List String → Nat → List String × Bool
  | [], i => ([], !flag i)
  | u :: rest, i =>
    if flag i then ([], false)
    else
      let r := playlistLoop flag rest (i + 1)
      (u :: r.1, r.2)

/-- `YouTubeDownloader.download_playlist` (downloader.py lines 238-320),
after playlist metadata has been resolved: the candidate filter, the
empty-candidate early success, the download loop, and the outer
`except Exception` that converts an escaping exception (e.g. from
`_get_downloaded_ids`) into `False`.  Returns the URLs passed to the
engine and the result. -/
def downloadPlaylist (folder : Option (List JDoc)) (entries : List (Option Entry))
    (skip : Bool) (flag : Nat → Bool) : List String × Bool :=
  match (if skip then getDownloadedIds folder else .ok []) with
  | .error _ => ([], false)
  | .ok ids =>
    let urls := urlsToDownload entries skip ids
    if urls.isEmpty then ([], true)
    else playlistLoop flag urls 0

/-! ## Download options (`_build_download_options`, downloader.py lines 154-199,
and `config.py` lines 26-77)

`options = DEFAULT_DOWNLOAD_CONFIG.copy()` is a SHALLOW copy: the value of
the `postprocessors` key of the copy is the very same list object (whose
element 0 is the very same dict object) as in the module-level
`DEFAULT_DOWNLOAD_CONFIG`.  We model that heap sharing explicitly: `Heap`
holds the contents of the shared postprocessor list, and an options dict
refers to its postprocessors either by the shared reference or by a fresh
list (after the video branch rebinds the key). -/

structure PPDict where
  key : String
  preferredcodec : Option String
  preferredquality : Option String
deriving DecidableEq, Repr

/-- Contents of the shared list object that is the value of
`DEFAULT_DOWNLOAD_CONFIG['postprocessors']`. -/
structure Heap where
  sharedPPs : List PPDict
deriving DecidableEq, Repr

/-- The pristine contents of that list (config.py lines 29-41). -/
def defaultSharedPPs : List PPDict :=
  [⟨"FFmpegExtractAudio", some "mp3", some "192"⟩,
   ⟨"EmbedThumbnail", none, none⟩,
   ⟨"FFmpegMetadata", none, none⟩]

inductive PPRef where
  | shared
  | fresh (l : List PPDict)
deriving DecidableEq, Repr

/-- Dereference a postprocessors value against the heap. -/
def PPRef.deref (h : Heap) : PPRef → List PPDict
  | .shared => h.sharedPPs
  | .fresh l => l

/-- The options dict fields the downloader manipulates. -/
structure Opts where
  outtmpl : String
  fmt : String
  postprocessors : PPRef
  progress_hooks : Bool
deriving DecidableEq, Repr

/-- The default output template of config.py line 27
(`DOWNLOADS_DIR / '%(uploader)s' / '%(title)s.%(ext)s'`). -/
def defaultOuttmpl : String := "descargas/%(uploader)s/%(title)s.%(ext)s"

/-- `AUDIO_FORMATS` keys (config.py lines 50-56). -/
def audioFormatKeys : List String := ["mp3", "flac", "wav", "m4a", "ogg"]

/-- `VIDEO_FORMATS` (config.py lines 59-64). -/
def videoFormats : List (String × String) :=
  [("mp4", "best[ext=mp4]"), ("webm", "best[ext=webm]"),
   ("mkv", "best[ext=mkv]"), ("avi", "best[ext=avi]")]

/-- `VIDEO_QUALITIES` (config.py lines 67-77): imported by downloader.py
but never consulted by `_build_download_options`. -/
def videoQualities : List (String × String) :=
  [("144p", "worst[height<=144]"), ("240p", "best[height<=240]"),
   ("360p", "best[height<=360]"), ("480p", "best[height<=480]"),
   ("720p", "best[height<=720]"), ("1080p", "best[height<=1080]"),
   ("1440p", "best[height<=1440]"), ("2160p", "best[height<=2160]"),
   ("Mejor", "best")]

/-- Lookup in an association list, i.e. `d[k]` on a Python dict literal
with distinct keys. -/
def alist.get (d : List (String × String)) (k : String) : Option String :=
  match d with
  | [] => none
  | (a, v) :: rest => if a = k then some v else alist.get rest k

/-- `options['postprocessors'][0]['preferredcodec'] = output_format` and
`...['preferredquality'] = quality`: in-place update of element 0 of the
shared list. -/
def setPP0 (l : List PPDict) (codec quality : String) : List PPDict :=
  match l with
  | [] => []
  | p :: rest => { p with preferredcodec := some codec, preferredquality := some quality } :: rest

/-- `YouTubeDownloader._build_download_options` (downloader.py lines
154-199).  Returns the built options dict together with the heap after the
call; for audio formats the in-place update of the shared postprocessor
dict writes through to `DEFAULT_DOWNLOAD_CONFIG`. -/
def buildDownloadOptions (output_format quality : String)
    (output_path : Option String) (playlist_mode : Bool)
    (hasHook : Bool) (h : Heap) : Opts × Heap :=
  let options : Opts :=
    { outtmpl := defaultOuttmpl, fmt := "bestaudio/best",
      postprocessors := .shared, progress_hooks := false }
  let options :=
    match output_path with
    | some path =>
      if playlist_mode then
        { options with outtmpl := path ++ "/%(playlist_title)s/%(title)s.%(ext)s" }
      else
        { options with outtmpl := path ++ "/%(title)s.%(ext)s" }
    | none => options
  let (options, h) :=
    if output_format ∈ audioFormatKeys then
      ({ options with fmt := "bestaudio/best" },
       { sharedPPs := setPP0 h.sharedPPs output_format quality })
    else
      match alist.get videoFormats output_format with
      | some fmtSel =>
        ({ options with
             fmt := fmtSel,
             postprocessors := .fresh [⟨"EmbedThumbnail", none, none⟩,
                                       ⟨"FFmpegMetadata", none, none⟩] }, h)
      | none => (options, h)
  let options := if hasHook then { options with progress_hooks := true } else options
  (options, h)

/-! ## Single video download (`download_single_video`, downloader.py lines
201-236)

The engine call `ydl.download([url])` either completes or raises; the
`except Exception` clause converts any raise into `False`, and the
`finally` clause resets `is_downloading`. -/

structure DLState where
  is_downloading : Bool
  cancel_download : Bool
  heap : Heap
deriving DecidableEq, Repr

/-- `YouTubeDownloader.download_single_video` (downloader.py lines
201-236).  `engineRaises` abstracts whether `ydl.download([url])` raises.
Returns the boolean result and the downloader state after the call. -/
def downloadSingleVideo (engineRaises : Bool) (output_format quality : String)
    (output_path : Option String) (hasHook : Bool) (basePath : String)
    (st : DLState) : Bool × DLState :=
  let st1 := { st with is_downloading := true, cancel_download := false }
  let built := buildDownloadOptions output_format quality
      (some (output_path.getD basePath)) false hasHook st1.heap
  let st2 := { st1 with heap := built.2 }
  if engineRaises then (false, { st2 with is_downloading := false })
  else (true, { st2 with is_downloading := false })

/-! ## File manager (`extras.py`, class `FileManager`)

A path is its list of segments; a filesystem is the list of directory
paths and the list of file paths.  `rglob('*')` on a base path yields
every entry strictly below the base. -/

structure FS where
  dirs : List (List String)
  files : List (List String)
deriving DecidableEq, Repr

/-- `base` is a proper ancestor of `p` (so `p` is yielded by
`base.rglob('*')`). -/
def properAncestor : List String → List String → Bool
  | [], p => !p.isEmpty
  | _ :: _, [] => false
  | b :: bs, q :: qs => b == q && properAncestor bs qs

/-- The entries yielded by `self.base_path.rglob('*')`: directories and
files strictly below the base. -/
def entriesUnder (base : List String) (fs : FS) : List (List String) :=
  fs.dirs.filter (properAncestor base) ++ fs.files.filter (properAncestor base)

/-- Stable insertion for descending path-segment count: `p` is placed
before the first element with strictly fewer segments, matching
`sorted(..., key=lambda p: len(p.parts), reverse=True)`. -/
def insertDeeper (p : List String) : List (List String) → List (List String)
  | [] => [p]
  | q :: rest =>
    if q.length < p.length then p :: q :: rest else q :: insertDeeper p rest

/-- `sorted(self.base_path.rglob('*'), key=lambda p: len(p.parts),
reverse=True)` (extras.py line 119), as a stable insertion sort. -/
def sortByDepthDesc : List (List String) → List (List String)
  | [] => []
  | p :: rest => insertDeeper p (sortByDepthDesc rest)

/-- `any(folder.iterdir())`: the directory `d` has at least one immediate
child among the live entries. -/
def hasChild (fs : FS) (d : List String) : Bool :=
  (fs.dirs ++ fs.files).any fun q => !q.isEmpty && q.dropLast == d

/-- One iteration of the deletion loop of `clean_empty_folders`
(extras.py lines 121-128): the `is_dir()` and emptiness checks are made
against the live filesystem, the iteration order against the snapshot. -/
def cleanStep (base : List String) (st : FS × Nat) (p : List String) : FS × Nat :=
  if st.1.dirs.contains p && !(p == base) then
    if !hasChild st.1 p then
      ({ st.1 with dirs := st.1.dirs.erase p }, st.2 + 1)
    else st
  else st

/-- `FileManager.clean_empty_folders` (extras.py lines 109-130): snapshot
the entries below the base, sort them deepest-first, then delete each
still-existing, non-base, empty directory; returns the new filesystem and
the deletion count. -/
def cleanEmptyFolders (base : List String) (fs : FS) : FS × Nat :=
  let folders := sortByDepthDesc (entriesUnder base fs)
  folders.foldl (cleanStep base) (fs, 0)

/-- `PurePath.suffix` on a file name: the part of `name` from its last
dot on, provided that dot is neither the first nor the last character;
empty otherwise. -/
def pySuffix (name : String) : String :=
  let cs := name.toList
  match (List.range cs.length).filter (fun i => cs.getD i ' ' == '.') |>.getLast? with
  | some i => if 0 < i && i < cs.length - 1 then String.mk (cs.drop i) else ""
  | none => ""

/-- `extensions[ext] = extensions.get(ext, 0) + 1` on a dict modelled as
an association list in insertion order. -/
def bump : List (String × Nat) → String → List (String × Nat)
  | [], k => [(k, 1)]
  | (a, n) :: rest, k =>
    if a = k then (a, n + 1) :: rest else (a, n) :: bump rest k

/-- The per-extension counts of `get_storage_info` (extras.py lines
75-79), folded over the files below the base. -/
def countExtensions (files : List (List String)) : List (String × Nat) :=
  files.foldl (fun acc f => bump acc (pySuffix (f.getLastD "")).toLower) []

structure StorageInfo where
  total_size : Nat
  file_count : Nat
  extensions : List (String × Nat)
  folder_count : Nat
deriving DecidableEq, Repr

/-- `FileManager.get_storage_info` (extras.py lines 64-87):
`file_count = len(list(self.base_path.rglob('*')))` counts every entry
below the base, directories included; `folder_count` counts only the
directories; `extensions` buckets only the files, by lower-cased suffix.
`size` gives each file's `st_size`. -/
def getStorageInfo (base : List String) (fs : FS) (size : List String → Nat) :
    StorageInfo :=
  let filesBelow := fs.files.filter (properAncestor base)
  { total_size := (filesBelow.map size).sum,
    file_count := (entriesUnder base fs).length,
    extensions := countExtensions filesBelow,
    folder_count := (fs.dirs.filter (properAncestor base)).length }

/-! ## Quality report (`QualityAnalyzer.get_quality_report`, extras.py
lines 313-355)

The analysis outcome of each audio file below the base is either failure
(the returned dict carries an `error` key) or a pair `(duration,
bitrate)`.  The distribution is a Python dict keyed by the Spanish label
strings, in insertion order. -/

/-- The label chosen by the `if/elif` chain of extras.py lines 336-345,
for a positive bitrate. -/
def labelOf (bitrate : Nat) : String :=
  if 320 ≤ bitrate then "Muy Alta (320+ kbps)"
  else if 256 ≤ bitrate then "Alta (256+ kbps)"
  else if 192 ≤ bitrate then "Buena (192+ kbps)"
  else if 128 ≤ bitrate then "Estándar (128+ kbps)"
  else "Baja (<128 kbps)"

/-- One iteration of the report loop (extras.py lines 325-347): a failed
analysis contributes nothing; a successful one is counted, its duration
added, and — only when its bitrate is positive — its label bucket
incremented. -/
def qualityStep (acc : Nat × Nat × List (String × Nat)) :
    Option (Nat × Nat) → Nat × Nat × List (String × Nat)
  | none => acc
  | some (dur, br) =>
    (acc.1 + 1, acc.2.1 + dur,
     if 0 < br then bump acc.2.2 (labelOf br) else acc.2.2)

def qualityLoop (acc : Nat × Nat × List (String × Nat)) :
    List (Option (Nat × Nat)) → Nat × Nat × List (String × Nat)
  | [] => acc
  | f :: rest => qualityLoop (qualityStep acc f) rest

/-- `int(s)` on the segment between the first `(` and the first
following `+` (or the end): the digits parse to a number, anything else
is the `ValueError` that `int('<128 kbps)')` raises. -/
def digitsToNat (cs : List Char) : Option Nat :=
  if cs.isEmpty || !cs.all Char.isDigit then none
  else some (cs.foldl (fun n c => n * 10 + (c.toNat - 48)) 0)

/-- `int(k.split('(')[1].split('+')[0])` for a label with a single `(`:
take the characters after the first `(` and before the first `+`, and
parse them as a number; `none` models the raised `ValueError`. -/
def parseLabelNum (k : String) : Option Nat :=
  digitsToNat (((k.data.dropWhile (fun c => !(c == '('))).drop 1).takeWhile
    (fun c => !(c == '+')))

/-- `sum(int(k.split('(')[1].split('+')[0]) * v for k, v in
quality_distribution.items() if '(' in k)` (extras.py line 354); an
unparsable label raises. -/
def sumLabels : List (String × Nat) → Except Unit Nat
  | [] => .ok 0
  | (k, v) :: rest =>
    if k.data.contains '(' then
      match parseLabelNum k with
      | some n => (sumLabels rest).map (fun s => n * v + s)
      | none => .error ()
    else sumLabels rest

structure QReport where
  files_analyzed : Nat
  total_duration : Nat
  quality_distribution : List (String × Nat)
  average_bitrate : ℚ
deriving DecidableEq, Repr

/-- `QualityAnalyzer.get_quality_report` (extras.py lines 313-355), on
the analysis outcomes of the audio files below the base.  The average is
the label-weighted sum divided by `max(files_analyzed, 1)`; an escaping
`ValueError` from the label parse is an `error` result. -/
def qualityReport (files : List (Option (Nat × Nat))) : Except Unit QReport :=
  let acc := qualityLoop (0, 0, []) files
  match sumLabels acc.2.2 with
  | .error e => .error e
  | .ok num =>
    .ok { files_analyzed := acc.1, total_duration := acc.2.1,
          quality_distribution := acc.2.2,
          average_bitrate := (num : ℚ) / ((max acc.1 1 : Nat) : ℚ) }

/-- Count held by a distribution dict for a label (`0` when absent). -/
def dcountOf (d : List (String × Nat)) (k : String) : Nat :=
  match d with
  | [] => 0
  | (a, n) :: rest => if a = k then n else dcountOf rest k

/-! ## Settings (`SettingsManager`, helpers.py lines 332-374, and
`load_json_file` / `save_json_file`, lines 268-302)

A settings document is a JSON object of strings, booleans and numbers,
modelled as an association list in insertion order.  `dset` is Python
dict assignment (update in place, else append); `dupdate` is
`dict.update`. -/

inductive SVal where
  | str (s : String)
  | bool (b : Bool)
  | nat (n : Nat)
deriving DecidableEq, Repr

/-- `d.get(key)` / `d[key]` lookup. -/
def dget : List (String × SVal) → String → Option SVal
  | [], _ => none
  | (a, w) :: rest, k => if a = k then some w else dget rest k

/-- Python dict assignment `d[k] = v`: update in place when the key
exists, append otherwise. -/
def dset : List (String × SVal) → String → SVal → List (String × SVal)
  | [], k, v => [(k, v)]
  | (a, w) :: rest, k, v =>
    if a = k then (a, v) :: rest else (a, w) :: dset rest k v

/-- `base.update(other)`: assign every entry of `other` into `base`, in
order. -/
def dupdate (base other : List (String × SVal)) : List (String × SVal) :=
  other.foldl (fun acc p => dset acc p.1 p.2) base

/-- The built-in defaults of `SettingsManager._load_settings`
(helpers.py lines 341-351).  `download_path` is
`str(Path.home() / 'Downloads' / 'YouTube')`; the home directory is
abstracted to a fixed string. -/
def defaultSettings : List (String × SVal) :=
  [("download_path", .str "HOME/Downloads/YouTube"),
   ("default_format", .str "mp3"),
   ("default_quality", .str "192"),
   ("skip_existing", .bool true),
   ("create_playlist_folders", .bool true),
   ("embed_thumbnails", .bool true),
   ("save_metadata", .bool true),
   ("max_concurrent_downloads", .nat 3),
   ("theme", .str "clam")]

/-- `SettingsManager._load_settings` (helpers.py lines 339-357): the
saved file is `none` when `load_json_file` fails (missing or
unparseable); `if saved_settings:` treats `None` and the empty dict
alike, so only a nonempty saved document is merged over the defaults. -/
def loadSettings (saved : Option (List (String × SVal))) : List (String × SVal) :=
  match saved with
  | none => defaultSettings
  | some d => if d.isEmpty then defaultSettings else dupdate defaultSettings d

/-- Distinctness of the keys of a dict modelled as an association list. -/
def NodupKeys {α : Type} (d : List (String × α)) : Prop := (d.map Prod.fst).Nodup

/-! ## Theorems -/

/-- The download loop against the flag that becomes true at boundary `k`:
with `i` calls already completed and `i ≤ k < i + urls.length`, exactly
`k - i` further URLs are passed to the engine and the result is `false`. -/
theorem playlistLoop_take (k : Nat) : ∀ (urls : List String) (i : Nat),
    i ≤ k → k < i + urls.length →
    playlistLoop (fun j => decide (k ≤ j)) urls i = (urls.take (k - i), false) := by
  intro urls
  induction urls with
  | nil =>
    intro i h1 h2
    simp only [List.length_nil, Nat.add_zero] at h2
    omega
  | cons u rest ih =>
    intro i h1 h2
    by_cases hik : k ≤ i
    · have hi : i = k := Nat.le_antisymm h1 hik
      subst hi
      simp [playlistLoop]
    · have hik' : i + 1 ≤ k := by omega
      have hlen : k < (i + 1) + rest.length := by
        simp only [List.length_cons] at h2
        omega
      have hrec := ih (i + 1) hik' hlen
      have htake : k - i = (k - (i + 1)) + 1 := by omega
      simp [playlistLoop, hik, hrec, htake, List.take_succ_cons]

/-- Claim C1: in a playlist download over `n` candidate URLs, if the
cancellation flag is raised after the `k`-th engine call completes and
before the next iteration begins (`k < n`), then exactly the first `k`
candidates are passed to the engine, the remaining candidates never are,
and `download_playlist` returns `false`; the flag is read only at the
loop head, between the opaque single-item engine calls. -/
theorem playlist_cancel_at_boundary (ids : List String) (k : Nat)
    (folder : Option (List JDoc)) (hk : k < ids.length) :
    downloadPlaylist folder (ids.map (fun s => some ⟨some s⟩)) false
        (fun i => decide (k ≤ i)) =
      ((ids.map (fun s => makeUrl (some s))).take k, false) := by
  have hurls : ∀ l : List String, urlsToDownload (l.map (fun s => some ⟨some s⟩)) false [] =
      l.map (fun s => makeUrl (some s)) := by
    intro l
    induction l with
    | nil => rfl
    | cons a t iht => simpa [urlsToDownload, List.filterMap_cons] using iht
  have hne : (ids.map (fun s => makeUrl (some s))).isEmpty = false := by
    cases ids with
    | nil => simp at hk
    | cons a l => simp [List.isEmpty]
  have hloop := playlistLoop_take k (ids.map (fun s => makeUrl (some s))) 0
    (Nat.zero_le k) (by simpa using hk)
  simp [downloadPlaylist, hurls, hne, hloop]

/-- Claim C1 witness: a five-item batch cancelled after the second engine
call downloads exactly two items and returns a non-success result. -/
theorem playlist_cancel_at_boundary_witness :
    downloadPlaylist none
        ((["a", "b", "c", "d", "e"]).map (fun s => some ⟨some s⟩)) false
        (fun i => decide (2 ≤ i)) =
      (["https://www.youtube.com/watch?v=a", "https://www.youtube.com/watch?v=b"],
       false) :=
  playlist_cancel_at_boundary ["a", "b", "c", "d", "e"] 2 none (by decide)

/-- Claim C3: the sidecar scan of `_get_downloaded_ids` returns the empty
set for a missing directory and collects exactly the truthy `id` fields
of the object sidecars, silently skipping unparseable sidecars and
sidecars without an identifier — but a sidecar that parses to a
non-object JSON value makes `data.get('id')` raise `AttributeError`,
which is not in the caught exception tuple, so the scan aborts. -/
theorem scan_aborts_on_nonobject_sidecar :
    getDownloadedIds none = .ok []
  ∧ getDownloadedIds (some [JDoc.invalid,
        JDoc.obj [("id", JVal.jstr "abc")],
        JDoc.obj [("id", JVal.jstr "")],
        JDoc.obj [("title", JVal.jstr "t")]]) = .ok ["abc"]
  ∧ getDownloadedIds (some [JDoc.invalid, JDoc.nonObj]) = .error () := by
  refine ⟨rfl, rfl, rfl⟩

/-- Claim C4: `options = DEFAULT_DOWNLOAD_CONFIG.copy()` is a shallow
copy, so an audio-format call writes `preferredcodec` / `preferredquality`
through the aliased `postprocessors` list into the module-level default
configuration: after `_build_download_options('flac', 'best')` the
default's first postprocessor dict is mutated, and the returned options
still alias the shared list. -/
theorem build_options_mutates_default_config :
    (buildDownloadOptions "flac" "best" none false false
        ⟨defaultSharedPPs⟩).2.sharedPPs =
      [⟨"FFmpegExtractAudio", some "flac", some "best"⟩,
       ⟨"EmbedThumbnail", none, none⟩, ⟨"FFmpegMetadata", none, none⟩]
  ∧ (buildDownloadOptions "flac" "best" none false false
        ⟨defaultSharedPPs⟩).2.sharedPPs ≠ defaultSharedPPs
  ∧ (buildDownloadOptions "flac" "best" none false false
        ⟨defaultSharedPPs⟩).1.postprocessors = PPRef.shared := by
  decide

/-- Claim C5 counterexample: for a video format the requested quality has
no effect whatsoever — the options built for `mp4` at `144p` and at
`2160p` are identical, and the stream selector is `best[ext=mp4]` with no
vertical-resolution ceiling. -/
theorem video_options_ignore_quality :
    buildDownloadOptions "mp4" "144p" none false false ⟨defaultSharedPPs⟩ =
      buildDownloadOptions "mp4" "2160p" none false false ⟨defaultSharedPPs⟩
  ∧ (buildDownloadOptions "mp4" "144p" none false false
        ⟨defaultSharedPPs⟩).1.fmt = "best[ext=mp4]" := by
  decide

/-- Claim C5 (amended): for a requested video format in
`{mp4, webm, mkv, avi}` and ANY requested quality token,
`_build_download_options` selects streams filtered by the container
extension only (`best[ext=...]`; the quality is ignored and
`VIDEO_QUALITIES` never consulted), with thumbnail and metadata embedding
as the only postprocessors and no transcoding postprocessor, leaving the
shared default configuration untouched. -/
theorem video_options_ext_only (fmt q : String) (path : Option String)
    (pm hook : Bool) (h : Heap) (hfmt : fmt ∈ ["mp4", "webm", "mkv", "avi"]) :
    (buildDownloadOptions fmt q path pm hook h).1.fmt = "best[ext=" ++ fmt ++ "]"
  ∧ (buildDownloadOptions fmt q path pm hook h).1.postprocessors =
      PPRef.fresh [⟨"EmbedThumbnail", none, none⟩, ⟨"FFmpegMetadata", none, none⟩]
  ∧ (buildDownloadOptions fmt q path pm hook h).2 = h := by
  simp only [List.mem_cons, List.mem_singleton, List.not_mem_nil, or_false] at hfmt
  rcases hfmt with rfl | rfl | rfl | rfl <;>
    cases path <;> cases pm <;> cases hook <;>
      simp [buildDownloadOptions, audioFormatKeys, alist.get, videoFormats]

/-- Claim C5 witness: the amended statement evaluated for `mp4` at
quality `720p`. -/
theorem video_options_ext_only_witness :
    (buildDownloadOptions "mp4" "720p" none false false
        ⟨defaultSharedPPs⟩).1.fmt = "best[ext=" ++ "mp4" ++ "]"
  ∧ (buildDownloadOptions "mp4" "720p" none false false
        ⟨defaultSharedPPs⟩).1.postprocessors =
      PPRef.fresh [⟨"EmbedThumbnail", none, none⟩, ⟨"FFmpegMetadata", none, none⟩]
  ∧ (buildDownloadOptions "mp4" "720p" none false false
        ⟨defaultSharedPPs⟩).2 = ⟨defaultSharedPPs⟩ :=
  video_options_ext_only "mp4" "720p" none false false ⟨defaultSharedPPs⟩ (by decide)

/-- Claim C6: `download_single_video` returns `true` exactly when the
engine call completes without raising; any raise is converted to `false`
(the result is a total boolean, never a propagated exception), and the
`finally` clause always clears `is_downloading`. -/
theorem single_video_result_iff_engine_ok (engineRaises : Bool)
    (output_format quality : String) (output_path : Option String)
    (hook : Bool) (basePath : String) (st : DLState) :
    ((downloadSingleVideo engineRaises output_format quality output_path
        hook basePath st).1 = true ↔ engineRaises = false)
  ∧ (downloadSingleVideo engineRaises output_format quality output_path
        hook basePath st).2.is_downloading = false := by
  cases engineRaises <;> simp [downloadSingleVideo]

/-- Claim C2 counterexample: even with an EMPTY entries list,
`download_playlist` with `skip_existing=true` over a destination folder
holding a sidecar that parses to a non-object JSON value returns `false`
— the sidecar scan raises before the candidate filter is reached and the
outer `except` converts the raise into a non-success result, so the
empty candidate list does not yield success. -/
theorem playlist_empty_not_always_success :
    downloadPlaylist (some [JDoc.nonObj]) [] true (fun _ => false) = ([], false) :=
  rfl

/-- Claim C2 (amended): whenever the sidecar scan does not raise
(e.g. no sidecar parses to a non-object JSON value), a playlist whose
candidate list after filtering is empty — because the resolved entries
list is empty, or because `skip_existing` is true and every non-null
entry's identifier is already among the scanned sidecar identifiers —
makes `download_playlist` return success without ever invoking the
engine's download call. -/
theorem playlist_empty_candidates_success (folder : Option (List JDoc))
    (entries : List (Option Entry)) (skip : Bool) (flag : Nat → Bool)
    (ids : List String)
    (hscan : skip = true → getDownloadedIds folder = .ok ids)
    (h : entries = [] ∨
      (skip = true ∧ ∀ en : Entry, some en ∈ entries →
        ∃ s, en.id = some s ∧ s ∈ ids)) :
    downloadPlaylist folder entries skip flag = ([], true) := by
  cases skip with
  | false =>
    rcases h with rfl | ⟨hsk, _⟩
    · rfl
    · exact absurd hsk (by simp)
  | true =>
    have hurls : urlsToDownload entries true ids = [] := by
      rcases h with rfl | ⟨_, hall⟩
      · rfl
      · apply List.filterMap_eq_nil_iff.mpr
        intro e he
        cases e with
        | none => rfl
        | some en =>
          rcases hall en he with ⟨s, hid, hmem⟩
          simp [idMem, hid, List.elem_eq_true_of_mem hmem, hmem]
    simp [downloadPlaylist, hscan rfl, hurls]

/-- Claim C2 witness: the amended statement evaluated on a folder whose
single sidecar records id `x` and a playlist whose single entry has id
`x`. -/
theorem playlist_empty_candidates_success_witness :
    downloadPlaylist (some [JDoc.obj [("id", JVal.jstr "x")]])
        [some ⟨some "x"⟩] true (fun _ => false) = ([], true) :=
  playlist_empty_candidates_success (some [JDoc.obj [("id", JVal.jstr "x")]])
    [some ⟨some "x"⟩] true (fun _ => false) ["x"]
    (fun _ => rfl)
    (Or.inr ⟨rfl, by
      intro en hen
      have : some en = some (⟨some "x"⟩ : Entry) := by
        simpa using hen
      cases Option.some.injEq .. ▸ this
      exact ⟨"x", rfl, by decide⟩⟩)

/-- A deletion step never removes the base directory: `cleanStep` erases
only a path that differs from the base. -/
theorem cleanStep_base_mem (base p : List String) (st : FS × Nat)
    (hb : base ∈ st.1.dirs) : base ∈ (cleanStep base st p).1.dirs := by
  unfold cleanStep
  split
  · split
    · rename_i hguard _
      have hne : ¬(p == base) = true := by
        intro hpb
        simp [hpb] at hguard
      exact List.mem_erase_of_ne (fun hx => hne (by simp [hx])) |>.mpr hb
    · exact hb
  · exact hb

/-- The whole deletion fold never removes the base directory. -/
theorem cleanFold_base_mem (base : List String) :
    ∀ (l : List (List String)) (st : FS × Nat), base ∈ st.1.dirs →
      base ∈ (l.foldl (cleanStep base) st).1.dirs := by
  intro l
  induction l with
  | nil => intro st hb; exact hb
  | cons p rest ih =>
    intro st hb
    exact ih (cleanStep base st p) (cleanStep_base_mem base p st hb)

/-- Claim C8: `clean_empty_folders` processes the snapshot of entries
deepest-first (by path-segment count, descending), never removes the base
directory itself, and on the tree `root/a/b` with `a` and `b` both empty
a single call removes `b` and then the now-empty `a`, returning a count
of 2. -/
theorem clean_empty_folders_deepest_first :
    (∀ (fs : FS) (base : List String), base ∈ fs.dirs →
        base ∈ (cleanEmptyFolders base fs).1.dirs)
  ∧ cleanEmptyFolders ["root"]
      ⟨[["root"], ["root", "a"], ["root", "a", "b"]], []⟩ =
      (⟨[["root"]], []⟩, 2) := by
  constructor
  · intro fs base hb
    exact cleanFold_base_mem base _ (fs, 0) hb
  · decide

/-- Claim C8 witness: the general no-base-removal conjunct evaluated on
the concrete `root/a/b` tree. -/
theorem clean_empty_folders_deepest_first_witness :
    ["root"] ∈ (cleanEmptyFolders ["root"]
      ⟨[["root"], ["root", "a"], ["root", "a", "b"]], []⟩).1.dirs :=
  clean_empty_folders_deepest_first.1
    ⟨[["root"], ["root", "a"], ["root", "a", "b"]], []⟩ ["root"] (by decide)

/-- Each `extensions[ext] = extensions.get(ext, 0) + 1` step raises the
total of the per-extension counts by one. -/
theorem extSum_bump (d : List (String × Nat)) (k : String) :
    ((bump d k).map Prod.snd).sum = ((d.map Prod.snd).sum) + 1 := by
  induction d with
  | nil => simp [bump]
  | cons p rest ih =>
    by_cases hpk : p.1 = k
    · cases p
      simp_all [bump]
      omega
    · cases p
      simp_all [bump]
      omega

/-- The per-extension counts of `get_storage_info` total exactly the
number of files scanned. -/
theorem extSum_countExtensions (files : List (List String)) :
    ((countExtensions files).map Prod.snd).sum = files.length := by
  suffices h : ∀ (acc : List (String × Nat)),
      ((files.foldl (fun acc f => bump acc (pySuffix (f.getLastD "")).toLower) acc).map
        Prod.snd).sum = ((acc.map Prod.snd).sum) + files.length by
    simpa [countExtensions] using h []
  induction files with
  | nil => intro acc; simp
  | cons f rest ih =>
    intro acc
    simp only [List.foldl_cons, ih, extSum_bump, List.length_cons]
    omega

/-- Claim C10: `file_count` of `get_storage_info` counts every entry
below the base — directories and files alike (`rglob('*')` with no
filter) — so it equals `folder_count` plus the number of files, is at
least `folder_count`, and is at least the total of the per-extension
counts (which buckets only the files). -/
theorem storage_file_count_counts_everything (base : List String) (fs : FS)
    (size : List String → Nat) :
    (getStorageInfo base fs size).file_count =
      (getStorageInfo base fs size).folder_count +
        (fs.files.filter (properAncestor base)).length
  ∧ (getStorageInfo base fs size).folder_count ≤
      (getStorageInfo base fs size).file_count
  ∧ ((getStorageInfo base fs size).extensions.map Prod.snd).sum ≤
      (getStorageInfo base fs size).file_count := by
  refine ⟨?_, ?_, ?_⟩
  · simp [getStorageInfo, entriesUnder]
  · simp [getStorageInfo, entriesUnder]
  · simp [getStorageInfo, entriesUnder, extSum_countExtensions]

theorem mem_keys_dset (d : List (String × SVal)) (k : String) (v : SVal)
    (x : String) :
    x ∈ (dset d k v).map Prod.fst ↔ x ∈ d.map Prod.fst ∨ x = k := by
  induction d with
  | nil => simp [dset]
  | cons p rest ih =>
    obtain ⟨a, w⟩ := p
    by_cases h : a = k
    · subst h
      simp [dset]
      tauto
    · simp [dset, h, ih]
      tauto

theorem nodup_dset (d : List (String × SVal)) (k : String) (v : SVal)
    (hd : NodupKeys d) : NodupKeys (dset d k v) := by
  induction d with
  | nil => simp [dset, NodupKeys]
  | cons p rest ih =>
    obtain ⟨a, w⟩ := p
    simp only [NodupKeys, List.map_cons, List.nodup_cons] at hd
    by_cases h : a = k
    · subst h
      simpa [dset, NodupKeys] using hd
    · have hrest := ih hd.2
      have hmem : a ∉ (dset rest k v).map Prod.fst := by
        rw [mem_keys_dset]
        push_neg
        exact ⟨hd.1, h⟩
      have hstep : dset ((a, w) :: rest) k v = (a, w) :: dset rest k v := by
        simp [dset, h]
      show ((dset ((a, w) :: rest) k v).map Prod.fst).Nodup
      rw [hstep, List.map_cons, List.nodup_cons]
      exact ⟨hmem, hrest⟩

theorem dget_dset_self (d : List (String × SVal)) (k : String) (v : SVal) :
    dget (dset d k v) k = some v := by
  induction d with
  | nil => simp [dset, dget]
  | cons p rest ih =>
    obtain ⟨a, w⟩ := p
    by_cases h : a = k <;> simp [dset, dget, h, ih]

theorem dget_dset_ne (d : List (String × SVal)) (k : String) (v : SVal)
    (x : String) (hx : x ≠ k) : dget (dset d k v) x = dget d x := by
  induction d with
  | nil => simp [dset, dget, Ne.symm hx]
  | cons p rest ih =>
    obtain ⟨a, w⟩ := p
    by_cases h : a = k
    · subst h
      simp [dset, dget, Ne.symm hx]
    · simp [dset, dget, h, ih]

theorem dget_eq_none_of_not_mem (d : List (String × SVal)) (x : String)
    (hx : x ∉ d.map Prod.fst) : dget d x = none := by
  induction d with
  | nil => rfl
  | cons p rest ih =>
    obtain ⟨a, w⟩ := p
    simp only [List.map_cons, List.mem_cons, not_or] at hx
    simp [dget, Ne.symm hx.1, ih hx.2]

theorem dget_dupdate_none : ∀ (other base : List (String × SVal)) (x : String),
    dget other x = none → dget (dupdate base other) x = dget base x := by
  intro other
  induction other with
  | nil => intro base x _; rfl
  | cons p rest ih =>
    intro base x hx
    obtain ⟨a, w⟩ := p
    have hax : ¬a = x := by
      intro h
      simp [dget, h] at hx
    have hrest : dget rest x = none := by
      simpa [dget, hax] using hx
    have hstep : dupdate base ((a, w) :: rest) = dupdate (dset base a w) rest := rfl
    rw [hstep, ih (dset base a w) x hrest]
    exact dget_dset_ne base a w x (Ne.symm hax)

theorem dget_dupdate_some : ∀ (other base : List (String × SVal)) (x : String)
    (val : SVal), NodupKeys other → dget other x = some val →
    dget (dupdate base other) x = some val := by
  intro other
  induction other with
  | nil => intro base x val _ hx; simp [dget] at hx
  | cons p rest ih =>
    intro base x val hnd hx
    obtain ⟨a, w⟩ := p
    simp only [NodupKeys, List.map_cons, List.nodup_cons] at hnd
    have hstep : dupdate base ((a, w) :: rest) = dupdate (dset base a w) rest := rfl
    by_cases h : a = x
    · subst h
      have hw : w = val := by simpa [dget] using hx
      subst hw
      have hrest : dget rest a = none :=
        dget_eq_none_of_not_mem rest a hnd.1
      rw [hstep, dget_dupdate_none rest (dset base a w) a hrest,
        dget_dset_self]
    · have hrest : dget rest x = some val := by simpa [dget, h] using hx
      rw [hstep]
      exact ih (dset base a w) x val hnd.2 hrest

theorem nodup_dupdate : ∀ (other base : List (String × SVal)),
    NodupKeys base → NodupKeys (dupdate base other) := by
  intro other
  induction other with
  | nil => intro base hb; exact hb
  | cons p rest ih =>
    intro base hb
    exact ih (dset base p.1 p.2) (nodup_dset base p.1 p.2 hb)

theorem nodup_loadSettings (saved : Option (List (String × SVal))) :
    NodupKeys (loadSettings saved) := by
  have hdef : NodupKeys defaultSettings := by
    show (defaultSettings.map Prod.fst).Nodup
    decide
  cases saved with
  | none => exact hdef
  | some d =>
    by_cases h : d.isEmpty <;> simp [loadSettings, h] <;>
      first
        | exact hdef
        | exact nodup_dupdate d defaultSettings hdef

theorem dset_not_empty (d : List (String × SVal)) (k : String) (v : SVal) :
    (dset d k v).isEmpty = false := by
  cases d with
  | nil => rfl
  | cons p rest =>
    obtain ⟨a, w⟩ := p
    by_cases h : a = k <;> simp [dset, h]

/-- Claim C7: the settings round-trip.  Construct a manager over any
saved document, set a key, save (the full merged dict is written), and
construct a new manager over the written document: the modified key maps
to the modified value, every default key absent from the written document
maps to its built-in default, and every key present in the written
document — unknown keys included — keeps its written value. -/
theorem settings_roundtrip (saved : Option (List (String × SVal)))
    (k : String) (v : SVal) :
    dget (loadSettings (some (dset (loadSettings saved) k v))) k = some v
  ∧ (∀ key, dget (dset (loadSettings saved) k v) key = none →
      dget (loadSettings (some (dset (loadSettings saved) k v))) key =
        dget defaultSettings key)
  ∧ (∀ key val, dget (dset (loadSettings saved) k v) key = some val →
      dget (loadSettings (some (dset (loadSettings saved) k v))) key = some val) := by
  have hnodup : NodupKeys (dset (loadSettings saved) k v) :=
    nodup_dset _ k v (nodup_loadSettings saved)
  have hload : loadSettings (some (dset (loadSettings saved) k v)) =
      dupdate defaultSettings (dset (loadSettings saved) k v) := by
    simp [loadSettings, dset_not_empty]
  refine ⟨?_, ?_, ?_⟩
  · rw [hload]
    exact dget_dupdate_some _ _ k v hnodup (dget_dset_self _ k v)
  · intro key hkey
    rw [hload]
    exact dget_dupdate_none _ _ key hkey
  · intro key val hkey
    rw [hload]
    exact dget_dupdate_some _ _ key val hnodup hkey

/-- Claim C7 witness: a saved document holding a modified `theme` and an
unknown `legacy_key`; after setting `default_format` to `flac`, saving
and reloading, the modified key reads back, an absent key falls back to
its default, and the unknown key is preserved. -/
theorem settings_roundtrip_witness :
    dget (loadSettings (some (dset
        (loadSettings (some [("theme", SVal.str "dark"), ("legacy_key", SVal.nat 7)]))
        "default_format" (SVal.str "flac")))) "default_format" =
      some (SVal.str "flac")
  ∧ dget (loadSettings (some (dset
        (loadSettings (some [("theme", SVal.str "dark"), ("legacy_key", SVal.nat 7)]))
        "default_format" (SVal.str "flac")))) "absent_key" =
      dget defaultSettings "absent_key"
  ∧ dget (loadSettings (some (dset
        (loadSettings (some [("theme", SVal.str "dark"), ("legacy_key", SVal.nat 7)]))
        "default_format" (SVal.str "flac")))) "legacy_key" =
      some (SVal.nat 7) :=
  ⟨(settings_roundtrip (some [("theme", SVal.str "dark"), ("legacy_key", SVal.nat 7)])
      "default_format" (SVal.str "flac")).1,
   (settings_roundtrip (some [("theme", SVal.str "dark"), ("legacy_key", SVal.nat 7)])
      "default_format" (SVal.str "flac")).2.1 "absent_key" (by decide),
   (settings_roundtrip (some [("theme", SVal.str "dark"), ("legacy_key", SVal.nat 7)])
      "default_format" (SVal.str "flac")).2.2 "legacy_key" (SVal.nat 7) (by decide)⟩

/-- Claim C9 counterexample: a single successfully inspected file with
tag bitrate 100 lands in the `Baja (<128 kbps)` band, whose label has no
`+`, so the average computation executes `int('<128 kbps)')` and the
report raises `ValueError` instead of returning a report. -/
theorem quality_report_low_band_raises :
    qualityReport [some (10, 100)] = .error () := rfl

theorem dcountOf_bump (d : List (String × Nat)) (k l : String) :
    dcountOf (bump d k) l = dcountOf d l + (if k = l then 1 else 0) := by
  induction d with
  | nil => simp [bump, dcountOf]
  | cons p rest ih =>
    obtain ⟨a, n⟩ := p
    by_cases hak : a = k
    · subst hak
      by_cases hal : a = l <;> simp [bump, dcountOf, hal]
    · by_cases hal : a = l
      · subst hal
        have hkl : ¬k = a := fun h => hak h.symm
        simp [bump, hak, dcountOf, hkl]
      · simp [bump, hak, dcountOf, hal, ih]

theorem mem_keys_bump (d : List (String × Nat)) (k x : String) :
    x ∈ (bump d k).map Prod.fst ↔ x ∈ d.map Prod.fst ∨ x = k := by
  induction d with
  | nil => simp [bump]
  | cons p rest ih =>
    obtain ⟨a, n⟩ := p
    by_cases hak : a = k
    · subst hak
      simp [bump]
      tauto
    · simp [bump, hak, ih]
      tauto

theorem nodup_bump (d : List (String × Nat)) (k : String)
    (hd : NodupKeys d) : NodupKeys (bump d k) := by
  induction d with
  | nil => simp [bump, NodupKeys]
  | cons p rest ih =>
    obtain ⟨a, n⟩ := p
    simp only [NodupKeys, List.map_cons, List.nodup_cons] at hd
    by_cases hak : a = k
    · subst hak
      simpa [bump, NodupKeys] using hd
    · have hrest := ih hd.2
      have hmem : a ∉ (bump rest k).map Prod.fst := by
        rw [mem_keys_bump]
        push_neg
        exact ⟨hd.1, hak⟩
      show ((bump ((a, n) :: rest) k).map Prod.fst).Nodup
      have hstep : bump ((a, n) :: rest) k = (a, n) :: bump rest k := by
        simp [bump, hak]
      rw [hstep, List.map_cons, List.nodup_cons]
      exact ⟨hmem, hrest⟩

theorem dcountOf_eq_zero (d : List (String × Nat)) (x : String)
    (hx : x ∉ d.map Prod.fst) : dcountOf d x = 0 := by
  induction d with
  | nil => rfl
  | cons p rest ih =>
    obtain ⟨a, n⟩ := p
    simp only [List.map_cons, List.mem_cons, not_or] at hx
    simp [dcountOf, Ne.symm hx.1, ih hx.2]

/-- `files_analyzed` counts exactly the successfully inspected files. -/
theorem qualityLoop_analyzed : ∀ (files : List (Option (Nat × Nat)))
    (acc : Nat × Nat × List (String × Nat)),
    (qualityLoop acc files).1 = acc.1 + (files.filterMap (fun x => x)).length := by
  intro files
  induction files with
  | nil => intro acc; simp [qualityLoop]
  | cons f rest ih =>
    intro acc
    cases f with
    | none => simp [qualityLoop, qualityStep, ih]
    | some p =>
      obtain ⟨d, b⟩ := p
      simp [qualityLoop, qualityStep, ih, List.filterMap_cons]
      omega

/-- The band counters of the loop: each label counts the successfully
inspected files with a positive bitrate whose label it is. -/
theorem qualityLoop_dcount : ∀ (files : List (Option (Nat × Nat)))
    (acc : Nat × Nat × List (String × Nat)) (label : String),
    dcountOf (qualityLoop acc files).2.2 label =
      dcountOf acc.2.2 label +
        (files.filterMap (fun x => x)).countP
          (fun p => decide (0 < p.2) && decide (labelOf p.2 = label)) := by
  intro files
  induction files with
  | nil => intro acc label; simp [qualityLoop]
  | cons f rest ih =>
    intro acc label
    cases f with
    | none => simp [qualityLoop, qualityStep, ih]
    | some p =>
      obtain ⟨d, b⟩ := p
      by_cases hb : 0 < b
      · by_cases hl : labelOf b = label
        · simp [qualityLoop, qualityStep, hb, ih, List.filterMap_cons,
            List.countP_cons, dcountOf_bump, hl]
          omega
        · simp [qualityLoop, qualityStep, hb, ih, List.filterMap_cons,
            List.countP_cons, dcountOf_bump, hl]
      · simp [qualityLoop, qualityStep, hb, ih, List.filterMap_cons,
          List.countP_cons]

/-- Every key of the produced distribution is the label of some
positive-bitrate inspected file. -/
theorem qualityLoop_keys : ∀ (files : List (Option (Nat × Nat)))
    (acc : Nat × Nat × List (String × Nat)) (x : String),
    x ∈ ((qualityLoop acc files).2.2).map Prod.fst →
      x ∈ acc.2.2.map Prod.fst ∨
        ∃ p ∈ files.filterMap (fun x => x), 0 < p.2 ∧ labelOf p.2 = x := by
  intro files
  induction files with
  | nil =>
    intro acc x hx
    exact Or.inl hx
  | cons f rest ih =>
    intro acc x hx
    cases f with
    | none =>
      rcases ih (qualityStep acc none) x hx with h | ⟨p, hp, hpos, hlab⟩
      · exact Or.inl h
      · exact Or.inr ⟨p, hp, hpos, hlab⟩
    | some q =>
      obtain ⟨d, b⟩ := q
      have hstep : (some (d, b) :: rest).filterMap (fun x => x) =
          (d, b) :: rest.filterMap (fun x => x) := rfl
      rcases ih (qualityStep acc (some (d, b))) x hx with h | ⟨p, hp, hpos, hlab⟩
      · by_cases hb : 0 < b
        · have := (mem_keys_bump acc.2.2 (labelOf b) x).mp
            (by simpa [qualityStep, hb] using h)
          rcases this with h2 | rfl
          · exact Or.inl h2
          · refine Or.inr ⟨(d, b), ?_, hb, rfl⟩
            rw [hstep]
            exact List.mem_cons_self _ _
        · exact Or.inl (by simpa [qualityStep, hb] using h)
      · refine Or.inr ⟨p, ?_, hpos, hlab⟩
        rw [hstep]
        exact List.mem_cons_of_mem _ hp

/-- The loop preserves distinctness of the distribution keys. -/
theorem qualityLoop_nodup : ∀ (files : List (Option (Nat × Nat)))
    (acc : Nat × Nat × List (String × Nat)),
    NodupKeys acc.2.2 → NodupKeys (qualityLoop acc files).2.2 := by
  intro files
  induction files with
  | nil => intro acc h; exact h
  | cons f rest ih =>
    intro acc h
    apply ih
    cases f with
    | none => exact h
    | some q =>
      obtain ⟨d, b⟩ := q
      by_cases hb : 0 < b <;> simp [qualityStep, hb]
      · exact nodup_bump _ _ h
      · exact h

/-- For a bitrate of at least 128 the assigned label is one of the four
parsable band labels. -/
theorem labelOf_mem_high (b : Nat) (hb : 128 ≤ b) :
    labelOf b = "Muy Alta (320+ kbps)" ∨ labelOf b = "Alta (256+ kbps)" ∨
    labelOf b = "Buena (192+ kbps)" ∨ labelOf b = "Estándar (128+ kbps)" := by
  by_cases h1 : 320 ≤ b
  · exact Or.inl (by simp [labelOf, h1])
  by_cases h2 : 256 ≤ b
  · exact Or.inr (Or.inl (by simp [labelOf, h1, h2]))
  by_cases h3 : 192 ≤ b
  · exact Or.inr (Or.inr (Or.inl (by simp [labelOf, h1, h2, h3])))
  · exact Or.inr (Or.inr (Or.inr (by simp [labelOf, h1, h2, h3, hb])))

/-- A distribution whose keys are all among the four parsable band
labels sums, per `sum(int(...) * v ...)`, to the label-weighted total of
its counters. -/
theorem sumLabels_of_high_keys (d : List (String × Nat)) (hnd : NodupKeys d)
    (hkeys : ∀ x ∈ d.map Prod.fst,
      x = "Muy Alta (320+ kbps)" ∨ x = "Alta (256+ kbps)" ∨
      x = "Buena (192+ kbps)" ∨ x = "Estándar (128+ kbps)") :
    sumLabels d = .ok (320 * dcountOf d "Muy Alta (320+ kbps)"
      + 256 * dcountOf d "Alta (256+ kbps)"
      + 192 * dcountOf d "Buena (192+ kbps)"
      + 128 * dcountOf d "Estándar (128+ kbps)") := by
  have hc1 : (("Muy Alta (320+ kbps)" : String).data.contains '(') = true := by decide
  have hc2 : (("Alta (256+ kbps)" : String).data.contains '(') = true := by decide
  have hc3 : (("Buena (192+ kbps)" : String).data.contains '(') = true := by decide
  have hc4 : (("Estándar (128+ kbps)" : String).data.contains '(') = true := by decide
  have hp1 : parseLabelNum "Muy Alta (320+ kbps)" = some 320 := by decide
  have hp2 : parseLabelNum "Alta (256+ kbps)" = some 256 := by decide
  have hp3 : parseLabelNum "Buena (192+ kbps)" = some 192 := by decide
  have hp4 : parseLabelNum "Estándar (128+ kbps)" = some 128 := by decide
  have n12 : ("Muy Alta (320+ kbps)" : String) ≠ "Alta (256+ kbps)" := by decide
  have n13 : ("Muy Alta (320+ kbps)" : String) ≠ "Buena (192+ kbps)" := by decide
  have n14 : ("Muy Alta (320+ kbps)" : String) ≠ "Estándar (128+ kbps)" := by decide
  have n23 : ("Alta (256+ kbps)" : String) ≠ "Buena (192+ kbps)" := by decide
  have n24 : ("Alta (256+ kbps)" : String) ≠ "Estándar (128+ kbps)" := by decide
  have n34 : ("Buena (192+ kbps)" : String) ≠ "Estándar (128+ kbps)" := by decide
  induction d with
  | nil => simp [sumLabels, dcountOf]
  | cons p rest ih =>
    obtain ⟨k, v⟩ := p
    simp only [NodupKeys, List.map_cons, List.nodup_cons] at hnd
    have hz := dcountOf_eq_zero rest k hnd.1
    have hrest := ih hnd.2 (fun x hx => hkeys x (by simp [hx]))
    rcases hkeys k (by simp) with rfl | rfl | rfl | rfl <;>
      simp [sumLabels, hc1, hc2, hc3, hc4, hp1, hp2, hp3, hp4, hrest, dcountOf,
        hz, n12, n13, n14, n23, n24, n34, Ne.symm n12, Ne.symm n13, Ne.symm n14,
        Ne.symm n23, Ne.symm n24, Ne.symm n34, Except.map] <;> omega

/-- A positive bitrate is assigned the `Alta (256+ kbps)` label exactly
when it lies in `[256, 320)`. -/
theorem count_pred_256 (b : Nat) :
    (decide (0 < b) && decide (labelOf b = "Alta (256+ kbps)")) =
    (decide (256 ≤ b) && decide (b < 320)) := by
  by_cases h1 : 320 ≤ b
  · have e1 : labelOf b = "Muy Alta (320+ kbps)" := by simp [labelOf, h1]
    have e2 : ¬b < 320 := by omega
    simp [e1, e2, (by decide : ¬("Muy Alta (320+ kbps)" : String) = "Alta (256+ kbps)")]
  by_cases h2 : 256 ≤ b
  · have e1 : labelOf b = "Alta (256+ kbps)" := by simp [labelOf, h1, h2]
    simp [e1, h2, show b < 320 by omega, show 0 < b by omega]
  by_cases h3 : 192 ≤ b
  · have e1 : labelOf b = "Buena (192+ kbps)" := by simp [labelOf, h1, h2, h3]
    simp [e1, h2, (by decide : ¬("Buena (192+ kbps)" : String) = "Alta (256+ kbps)")]
  by_cases h4 : 128 ≤ b
  · have e1 : labelOf b = "Estándar (128+ kbps)" := by simp [labelOf, h1, h2, h3, h4]
    simp [e1, h2, (by decide : ¬("Estándar (128+ kbps)" : String) = "Alta (256+ kbps)")]
  · have e1 : labelOf b = "Baja (<128 kbps)" := by simp [labelOf, h1, h2, h3, h4]
    simp [e1, h2, (by decide : ¬("Baja (<128 kbps)" : String) = "Alta (256+ kbps)")]

/-- Claim C9 (amended): when no successfully inspected file reports a
bitrate strictly between 0 and 128 (which would land in the unparsable
`Baja` band and make the report raise `ValueError`), `get_quality_report`
succeeds; `files_analyzed` counts exactly the successfully inspected
files (failed inspections are excluded, not counted as zero; bitrate-0
files are analyzed but unbucketed), a file with bitrate 256 falls in the
`Alta (256+ kbps)` band (it counts the files with bitrate in
`[256, 320)`), and `average_bitrate` is the label-weighted sum of the
band counters divided by `max(files_analyzed, 1)`. -/
theorem quality_report_buckets (files : List (Option (Nat × Nat)))
    (hfiles : ∀ p ∈ files.filterMap (fun x => x), p.2 = 0 ∨ 128 ≤ p.2) :
    ∃ r, qualityReport files = .ok r
      ∧ r.files_analyzed = (files.filterMap (fun x => x)).length
      ∧ dcountOf r.quality_distribution "Alta (256+ kbps)" =
          (files.filterMap (fun x => x)).countP
            (fun p => decide (256 ≤ p.2) && decide (p.2 < 320))
      ∧ r.average_bitrate =
          ((320 * dcountOf r.quality_distribution "Muy Alta (320+ kbps)"
            + 256 * dcountOf r.quality_distribution "Alta (256+ kbps)"
            + 192 * dcountOf r.quality_distribution "Buena (192+ kbps)"
            + 128 * dcountOf r.quality_distribution "Estándar (128+ kbps)" : Nat) : ℚ)
            / ((max r.files_analyzed 1 : Nat) : ℚ) := by
  set acc := qualityLoop (0, 0, []) files with hacc
  have hkeys : ∀ x ∈ acc.2.2.map Prod.fst,
      x = "Muy Alta (320+ kbps)" ∨ x = "Alta (256+ kbps)" ∨
      x = "Buena (192+ kbps)" ∨ x = "Estándar (128+ kbps)" := by
    intro x hx
    rcases qualityLoop_keys files (0, 0, []) x hx with h | ⟨p, hp, hpos, hlab⟩
    · simp at h
    · rw [← hlab]
      rcases hfiles p hp with h0 | h128
      · omega
      · exact labelOf_mem_high p.2 h128
  have hnodup : NodupKeys acc.2.2 := by
    rw [hacc]
    exact qualityLoop_nodup files (0, 0, []) (by simp [NodupKeys])
  have hsum := sumLabels_of_high_keys acc.2.2 hnodup hkeys
  refine ⟨{ files_analyzed := acc.1, total_duration := acc.2.1,
            quality_distribution := acc.2.2,
            average_bitrate :=
              ((320 * dcountOf acc.2.2 "Muy Alta (320+ kbps)"
                + 256 * dcountOf acc.2.2 "Alta (256+ kbps)"
                + 192 * dcountOf acc.2.2 "Buena (192+ kbps)"
                + 128 * dcountOf acc.2.2 "Estándar (128+ kbps)" : Nat) : ℚ)
                / ((max acc.1 1 : Nat) : ℚ) }, ?_, ?_, ?_, ?_⟩
  · show qualityReport files = _
    unfold qualityReport
    rw [← hacc]
    simp only [hsum]
  · show acc.1 = _
    rw [hacc]
    simpa using qualityLoop_analyzed files (0, 0, [])
  · show dcountOf acc.2.2 "Alta (256+ kbps)" = _
    have hcount := qualityLoop_dcount files (0, 0, []) "Alta (256+ kbps)"
    rw [← hacc] at hcount
    have hfun : (fun p : Nat × Nat =>
        decide (0 < p.2) && decide (labelOf p.2 = "Alta (256+ kbps)")) =
        (fun p : Nat × Nat => decide (256 ≤ p.2) && decide (p.2 < 320)) :=
      funext fun p => count_pred_256 p.2
    rw [hcount, ← hfun]
    simp [dcountOf]
  · rfl

/-- Claim C9 witness: the amended statement evaluated on one 256 kbps
file, one failed inspection, one bitrate-0 file and one 320 kbps file. -/
theorem quality_report_buckets_witness :
    ∃ r, qualityReport [some (10, 256), none, some (5, 0), some (7, 320)] = .ok r
      ∧ r.files_analyzed =
          (([some (10, 256), none, some (5, 0), some (7, 320)] :
            List (Option (Nat × Nat))).filterMap (fun x => x)).length
      ∧ dcountOf r.quality_distribution "Alta (256+ kbps)" =
          (([some (10, 256), none, some (5, 0), some (7, 320)] :
            List (Option (Nat × Nat))).filterMap (fun x => x)).countP
            (fun p => decide (256 ≤ p.2) && decide (p.2 < 320))
      ∧ r.average_bitrate =
          ((320 * dcountOf r.quality_distribution "Muy Alta (320+ kbps)"
            + 256 * dcountOf r.quality_distribution "Alta (256+ kbps)"
            + 192 * dcountOf r.quality_distribution "Buena (192+ kbps)"
            + 128 * dcountOf r.quality_distribution "Estándar (128+ kbps)" : Nat) : ℚ)
            / ((max r.files_analyzed 1 : Nat) : ℚ) :=
  quality_report_buckets [some (10, 256), none, some (5, 0), some (7, 320)]
    (by decide)

end TubeDrop
